import Mathlib

/-!
Verification of the EMAN2 plugin conversion layer (`eman2/convert/convert.py`
and the bispectra conversion step of `protocol_refine2d_bispec.py`).

The Python source is shallowly embedded: pure numeric code over Python floats
is modelled over `ℝ` (exact real arithmetic, the idealisation of IEEE floats),
JSON records become Lean structures, line-oriented files become `List String`,
and fallible code returns `Option`/`Except`.
-/

namespace Eman2

noncomputable section RealDefs

/-- Embedding of `numpy.rad2deg`: radians to degrees. -/
def rad2deg (x : ℝ) : ℝ := x * 180 / Real.pi

/-- Embedding of `numpy.deg2rad`: degrees to radians. -/
def deg2rad (x : ℝ) : ℝ := x * Real.pi / 180

/-- Componentwise negation of a real triple. -/
def neg3 (v : ℝ × ℝ × ℝ) : ℝ × ℝ × ℝ := (-v.1, -v.2.1, -v.2.2)

/-- The map `numpy.rad2deg` applied componentwise to a triple. -/
def rad2deg3 (v : ℝ × ℝ × ℝ) : ℝ × ℝ × ℝ := (rad2deg v.1, rad2deg v.2.1, rad2deg v.2.2)

/-- The map `numpy.deg2rad` applied componentwise to a triple. -/
def deg2rad3 (v : ℝ × ℝ × ℝ) : ℝ × ℝ × ℝ := (deg2rad v.1, deg2rad v.2.1, deg2rad v.2.2)

/-- Embedding of `math.atan2 y x`: the angle of the point `(x, y)`, realised as the
complex argument of `x + y*i`. -/
def atan2 (y x : ℝ) : ℝ := Complex.arg ⟨x, y⟩

/-- Homogeneous 4x4 real matrices, the type of `numpy` transform matrices
used by the converter. -/
abbrev Mat4 := Matrix (Fin 4) (Fin 4) ℝ

/-- The 3x3 rotation block `M[:3, :3]`. -/
def rotBlock (M : Mat4) : Matrix (Fin 3) (Fin 3) ℝ :=
  Matrix.of
    ![![M 0 0, M 0 1, M 0 2],
      ![M 1 0, M 1 1, M 1 2],
      ![M 2 0, M 2 1, M 2 2]]

/-- The homogeneous matrix with the same rotation block as `M`, zero
translation and last row `[0, 0, 0, 1]`: what `euler_matrix` rebuilds. -/
def rotOnly (M : Mat4) : Mat4 :=
  Matrix.of
    ![![M 0 0, M 0 1, M 0 2, 0],
      ![M 1 0, M 1 1, M 1 2, 0],
      ![M 2 0, M 2 1, M 2 2, 0],
      ![0, 0, 0, 1]]

/-- The closed-form inverse of a rigid transform
`[[R, t], [0, 1]]`, namely `[[Rᵀ, -Rᵀt], [0, 1]]`; proved below to be the
two-sided inverse, so numpy's `inv` agrees with it on rigid input. -/
def rigidInverse (M : Mat4) : Mat4 :=
  Matrix.of
    ![![M 0 0, M 1 0, M 2 0, -(M 0 0 * M 0 3 + M 1 0 * M 1 3 + M 2 0 * M 2 3)],
      ![M 0 1, M 1 1, M 2 1, -(M 0 1 * M 0 3 + M 1 1 * M 1 3 + M 2 1 * M 2 3)],
      ![M 0 2, M 1 2, M 2 2, -(M 0 2 * M 0 3 + M 1 2 * M 1 3 + M 2 2 * M 2 3)],
      ![0, 0, 0, 1]]

/-- Embedding of `translation_from_matrix M` from the external `transformations` module
imported by the source: the translation column `M[:3, 3]`. -/
def translation_from_matrix (M : Mat4) : ℝ × ℝ × ℝ := (M 0 3, M 1 3, M 2 3)

/-- The guard `sy > _EPS` of `euler_from_matrix`.  The Python source compares
with four times the floating-point machine epsilon; in the exact real
embedding the epsilon is idealised to `0`. -/
def eulerEPS : ℝ := 0

/-- Embedding of `euler_from_matrix(M, axes='szyz')` from the external `transformations`
module imported by the source, specialised to the only axes string the
source uses.  For `'szyz'` the module's tuple is
`(firstaxis, parity, repetition, frame) = (2, 1, 1, 0)`, hence `i = 2`,
`j = 1`, `k = 0`, the repetition branch is taken, and the final `parity`
step negates all three angles. -/
def euler_from_matrix (M : Mat4) : ℝ × ℝ × ℝ :=
  let sy := Real.sqrt (M 2 1 * M 2 1 + M 2 0 * M 2 0)
  if sy > eulerEPS then
    let ax := atan2 (M 2 1) (M 2 0)
    let ay := atan2 sy (M 2 2)
    let az := atan2 (M 1 2) (-(M 0 2))
    (-ax, -ay, -az)
  else
    let ax := atan2 (-(M 1 0)) (M 1 1)
    let ay := atan2 sy (M 2 2)
    (-ax, -ay, -0)

/-- Embedding of `euler_matrix(ai, aj, ak, axes='szyz')` from the external
`transformations` module imported by the source: the `parity` step negates
the angles, then the repetition branch fills the rotation block with
`i = 2`, `j = 1`, `k = 0`; the rest of the matrix stays the identity. -/
def euler_matrix (ai aj ak : ℝ) : Mat4 :=
  let a := -ai
  let b := -aj
  let c := -ak
  let si := Real.sin a
  let sj := Real.sin b
  let sk := Real.sin c
  let ci := Real.cos a
  let cj := Real.cos b
  let ck := Real.cos c
  let cc := ci * ck
  let cs := ci * sk
  let sc := si * ck
  let ss := si * sk
  Matrix.of
    ![![cj * cc - ss, cj * sc + cs, -sj * ck, 0],
      ![-cj * cs - sc, -cj * ss + cc, sj * sk, 0],
      ![sj * ci, sj * si, cj, 0],
      ![0, 0, 0, 1]]

/-- The in-place update `M[:3, 3] = s` on a homogeneous matrix. -/
def setTranslation (M : Mat4) (s : ℝ × ℝ × ℝ) : Mat4 :=
  Matrix.of fun i j =>
    if j = 3 then
      if i = 0 then s.1 else if i = 1 then s.2.1 else if i = 2 then s.2.2 else M 3 3
    else M i j

/-- Embedding of `geometryFromMatrix(matrix, inverseTransform)` from
`eman2/convert/convert.py`: optionally invert the matrix (numpy's true
inverse, embedded as Mathlib's matrix inverse), extract the translation
(negated in the inverse case), and return it together with the negated
ZYZ Euler angles converted to degrees. -/
def geometryFromMatrix (matrix : Mat4) (inverseTransform : Bool) :
    (ℝ × ℝ × ℝ) × (ℝ × ℝ × ℝ) :=
  if inverseTransform then
    let matrix' := matrix⁻¹
    let shifts := neg3 (translation_from_matrix matrix')
    let angles := neg3 (rad2deg3 (euler_from_matrix matrix'))
    (shifts, angles)
  else
    let shifts := translation_from_matrix matrix
    let angles := neg3 (rad2deg3 (euler_from_matrix matrix))
    (shifts, angles)

/-- Embedding of `matrixFromGeometry(shifts, angles, inverseTransform)` from
`eman2/convert/convert.py`: build the ZYZ rotation from the negated
angles in radians; in the inverse case store the negated shifts in the
translation column and invert the whole matrix, otherwise store the
shifts directly. -/
def matrixFromGeometry (shifts angles : ℝ × ℝ × ℝ) (inverseTransform : Bool) : Mat4 :=
  let radAngles := neg3 (deg2rad3 angles)
  let M := euler_matrix radAngles.1 radAngles.2.1 radAngles.2.2
  if inverseTransform then (setTranslation M (neg3 shifts))⁻¹
  else setTranslation M shifts

/-- The validity precondition named by the round-trip claim: orthonormal
rotation block and last row `[0, 0, 0, 1]`. -/
def IsRigidOrtho (M : Mat4) : Prop :=
  Matrix.transpose (rotBlock M) * rotBlock M = 1 ∧
    M 3 0 = 0 ∧ M 3 1 = 0 ∧ M 3 2 = 0 ∧ M 3 3 = 1

/-- A proper rigid transform: orthonormal rotation block of determinant `+1`
(a genuine rotation) and last row `[0, 0, 0, 1]`. -/
def IsProperRigid (M : Mat4) : Prop :=
  IsRigidOrtho M ∧ (rotBlock M).det = 1

/-- The function `geometryFromMatrix` as the specification describes it, for comparison
with the embedding of the source: invert first when asked, negate the
extracted translation in that case, and return the ZYZ Euler decomposition
of the (possibly inverted) matrix, negated and converted to degrees. -/
def geometryFromMatrixSpec (matrix : Mat4) (inverse : Bool) :
    (ℝ × ℝ × ℝ) × (ℝ × ℝ × ℝ) :=
  let N := if inverse then matrix⁻¹ else matrix
  let shifts :=
    if inverse then neg3 (translation_from_matrix N) else translation_from_matrix N
  (shifts, neg3 (rad2deg3 (euler_from_matrix N)))

/-- Embedding of `calculatePhaseShift(ampcont)` from `eman2/convert/convert.py`,
reproducing the EMAN2 `ctf.cpp` formula. -/
def calculatePhaseShift (ampcont : ℝ) : ℝ :=
  let PhaseShift :=
    if -100 < ampcont ∧ ampcont ≤ 100 then Real.arcsin (ampcont / 100)
    else if ampcont > 100 then Real.pi - Real.arcsin (2 - ampcont / 100)
    else -Real.pi - Real.arcsin (-2 - ampcont / 100)
  rad2deg PhaseShift

/-- One CTF record of the metadata JSON: the fields `readCTFModel` reads. -/
structure CTFRecord where
  defocus : ℝ
  dfang : ℝ
  dfdiff : ℝ
  ampcont : ℝ

/-- The shape of the CTF metadata JSON as `readCTFModel` sees it.
`ctf_frame = some p` models the key `'ctf_frame'` being present with
`jsonDict['ctf_frame'][1] = p`, where `p = none` stands for a falsy
payload (`null`, `{}`); likewise `ctf` for `jsonDict['ctf'][0]`.
`ctf_im2d` records whether the key `'ctf_im2d'` is present. -/
structure EmanCtfJson where
  ctf_frame : Option (Option CTFRecord)
  ctf : Option (Option CTFRecord)
  ctf_im2d : Bool

/-- The mutable CTF model object, reduced to the fields the source sets. -/
structure CTFModel where
  defocusU : ℝ
  defocusV : ℝ
  defocusAngle : ℝ
  phaseShift : ℝ
  psdFile : Option String

/-- Embedding of `setWrongDefocus(ctfModel)` from `eman2/convert/convert.py`. -/
def setWrongDefocus (m : CTFModel) : CTFModel :=
  { m with defocusU := -999, defocusV := -1, defocusAngle := -999 }

/-- The host object's `setStandardDefocus` accessor (an external
collaborator): store the three defocus values. -/
def setStandardDefocus (m : CTFModel) (u v ang : ℝ) : CTFModel :=
  { m with defocusU := u, defocusV := v, defocusAngle := ang }

/-- The value `keyPos` computed by `readCTFModel`: the payload of
`'ctf_frame'` when that key is present, else the payload of `'ctf'` when
present, else `None`. -/
def ctfKeyPos (j : EmanCtfJson) : Option CTFRecord :=
  match j.ctf_frame, j.ctf with
  | some p, _ => p
  | none, some p => p
  | none, none => none

/-- Embedding of `readCTFModel(ctfModel, filename)` from `eman2/convert/convert.py`.
The JSON file contents arrive as an `EmanCtfJson`; `psdFile` stands for
the PSD image path when the file exists on disk (`pwutils.exists`),
filesystem access being external I/O. -/
def readCTFModel (ctfModel : CTFModel) (j : EmanCtfJson) (psdFile : Option String) :
    CTFModel :=
  let m1 :=
    match j.ctf_frame, j.ctf with
    | some _, _ => ctfModel
    | none, some _ => ctfModel
    | none, none => setWrongDefocus ctfModel
  match ctfKeyPos j with
  | some k =>
      let defocusU := 10000 * k.defocus + 5000 * k.dfdiff
      let defocusV := 20000 * k.defocus - defocusU
      let ctfPhaseShift := calculatePhaseShift k.ampcont
      let m2 := setStandardDefocus m1 defocusU defocusV k.dfang
      let m3 :=
        if j.ctf_im2d then
          match psdFile with
          | some f => { m2 with psdFile := some f }
          | none => m2
        else m2
      { m3 with phaseShift := ctfPhaseShift }
  | none => { m1 with phaseShift := 0 }

/-- A reflection-containing rigid matrix: orthonormal rotation block with
determinant `-1`, last row `[0, 0, 0, 1]`. -/
def cexMatrix : Mat4 :=
  Matrix.of ![![1, 0, 0, 0], ![0, 1, 0, 0], ![0, 0, -1, 0], ![0, 0, 0, 1]]

/-- A proper rigid transform with a nonzero translation, for witnessing the
round-trip. -/
def rigidWitnessMatrix : Mat4 :=
  Matrix.of ![![1, 0, 0, 2], ![0, 1, 0, 3], ![0, 0, 1, 4], ![0, 0, 0, 1]]

end RealDefs

/-- One particle as seen by the index-normalisation loop of
`writeSetOfParticles` / `convertReferences`: its source stack file and its
model index. -/
structure EmanParticle where
  filename : String
  index : Int
deriving DecidableEq, Repr

/-- The state-passing loop body shared by `writeSetOfParticles` and
`convertReferences` in `eman2/convert/convert.py`: the running pair
`(fileName, a)` starts at `("", 0)`; on a particle whose filename differs
from `fileName` the offset `a` is recomputed (`0` when that particle's
index is `0`, else `1`); every particle is written with index
`index - a`. -/
def writeIndicesAux : List EmanParticle → String → Int → List Int
  | [], _, _ => []
  | p :: ps, fileName, a =>
      let fa :=
        if fileName ≠ p.filename then
          (p.filename, if p.index = 0 then (0 : Int) else 1)
        else (fileName, a)
      (p.index - fa.2) :: writeIndicesAux ps fa.1 fa.2

/-- The sequence of stack indices written out for a particle sequence,
with the loop state initialised as in the source (`fileName = ""`,
`a = 0`). -/
def writeSetOfParticlesIndices (parts : List EmanParticle) : List Int :=
  writeIndicesAux parts "" 0

/-- Embedding of Python's `'#' in line`: the line contains the character. -/
def pyContains (s : String) (c : Char) : Bool := s.data.contains c

/-- Worker for `pySplit`: scan the characters, accumulating the current
field in reverse. -/
def pySplitAux : List Char → List Char → List String
  | [], acc => if acc.isEmpty then [] else [⟨acc.reverse⟩]
  | c :: cs, acc =>
      if c.isWhitespace then
        if acc.isEmpty then pySplitAux cs [] else ⟨acc.reverse⟩ :: pySplitAux cs []
      else pySplitAux cs (c :: acc)

/-- Python's `str.split()` on a line: split on runs of whitespace,
dropping empty fields. -/
def pySplit (s : String) : List String := pySplitAux s.data []

/-- Decimal digits to a natural number. -/
def digitsToNat (ds : List Char) : Nat :=
  ds.foldl (fun n c => n * 10 + (c.toNat - Char.toNat '0')) 0

/-- Python's `int(token)` on a whitespace-free token: an optional sign
followed by at least one decimal digit; anything else raises, embedded as
`none`. -/
def pyToInt (s : String) : Option Int :=
  match s.data with
  | [] => none
  | '-' :: ds =>
      if ds ≠ [] ∧ ds.all Char.isDigit then some (-(digitsToNat ds : Int)) else none
  | '+' :: ds =>
      if ds ≠ [] ∧ ds.all Char.isDigit then some ((digitsToNat ds : Int)) else none
  | ds =>
      if ds.all Char.isDigit then some ((digitsToNat ds : Int)) else none

/-- Embedding of `iterLstFile(filename)` from `eman2/convert/convert.py`, with the file
given as its list of lines (without newline terminators).  A line
containing `'#'` is skipped; any other line yields
`(int(line.split()[0]) + 1, line.split()[1])`; a malformed data line makes
the Python generator raise, embedded as `none`. -/
def iterLstFile : List String → Option (List (Int × String))
  | [] => some []
  | line :: rest =>
      if pyContains line '#' then iterLstFile rest
      else
        match pySplit line with
        | t0 :: t1 :: _ =>
            match pyToInt t0 with
            | some n => (iterLstFile rest).map fun l => (n + 1, t1) :: l
            | none => none
        | _ => none

/-- One picked coordinate as produced by `readCoordinates`: its position
and the micrograph it is associated with. -/
structure EmanCoord where
  x : ℚ
  y : ℚ
  micId : Nat
deriving DecidableEq, Repr

/-- Embedding of `readCoordinates(mic, fileName, coordsSet, invertY)` from
`eman2/convert/convert.py`.  `fileExists` stands for
`pwutils.exists(fileName)`; `jsonBoxes` is the `"boxes"` entry of the
JSON when present.  Each box yields one coordinate `(x, y)` from its
first two elements, with `y` replaced by `mic.getYDim() - y` when
`invertY`; a box shorter than two elements makes the Python unpacking
raise, embedded as `none`. -/
def readCoordinates (fileExists : Bool) (micId : Nat) (micYDim : ℚ)
    (jsonBoxes : Option (List (List ℚ))) (invertY : Bool) :
    Option (List EmanCoord) :=
  if fileExists then
    match jsonBoxes with
    | some boxes =>
        boxes.mapM fun box =>
          match box with
          | x :: y :: _ =>
              some { x := x, y := if invertY then micYDim - y else y, micId := micId }
          | _ => none
    | none => some []
  else some []

/-- Embedding of `os.path.basename`: the component after the last slash. -/
def baseName (fn : String) : String := (fn.splitOn "/").getLastD ""

/-- Embedding of `os.path.join` for the two-argument uses in the source. -/
def joinPath (a b : String) : String := a ++ "/" ++ b

/-- The bispectra branch at the end of `convertImagesStep` in
`protocol_refine2d_bispec.py`: when input bispectra are used, first compare
the bispectra set size with the particle set size and raise
(`Except.error`) on mismatch; only otherwise link every matched
`*__ctf_flip_bispec.hdf` file into the extra path and finally link the
`.lst` file.  The returned list is the sequence of `(source, target)`
links actually created. -/
def convertImagesBispecLinks (useInputBispec : Bool) (bispecSize partSetSize : Nat)
    (hdfFiles : List String) (extraParticlesPath lstFn newLstFn : String) :
    Except String (List (String × String)) :=
  if useInputBispec then
    if ¬ (bispecSize = partSetSize) then
      Except.error "Input particles and bispectra sets have different size!"
    else
      Except.ok
        ((hdfFiles.map fun fn => (fn, joinPath extraParticlesPath (baseName fn)))
          ++ [(lstFn, newLstFn)])
  else Except.ok []

/-- The per-entry values of a `particle_parms_NN.json` record, as
`getLastParticlesParams` reads them: `values.get("coverage")`,
`values.get("score")` and `values.get("xform.align3d", {}).get("matrix")`,
each `none` when absent. -/
structure ParamsValues where
  coverage : Option ℚ
  score : Option ℚ
  alignMatrix : Option (List ℚ)
deriving DecidableEq, Repr

/-- Python truthiness of an optional number: `None` and `0` are falsy. -/
def pyTruthyNum : Option ℚ → Bool
  | none => false
  | some x => x ≠ 0

/-- Python truthiness of an optional list: `None` and `[]` are falsy. -/
def pyTruthyList : Option (List ℚ) → Bool
  | none => false
  | some l => l ≠ []

/-- Embedding of `re.search(r'(\d+)\)$', key)`: the key must end in `')'` directly
preceded by at least one digit; the captured group is the maximal digit
run before that final `')'`. -/
def parseKeyIndex (key : String) : Option Nat :=
  match key.data.reverse with
  | ')' :: rest =>
      let ds := rest.takeWhile Char.isDigit
      if ds.isEmpty then none else some (digitsToNat ds.reverse)
  | _ => none

/-- The filtering loop of `getLastParticlesParams` in
`eman2/convert/convert.py`, over the already-parsed entries of the last
`particle_parms_NN.json`: entries whose key has no trailing `(\d+\))`
are skipped, and an entry is kept only when `coverage`, `score` and the
align matrix are all truthy. -/
def getLastParticlesParams (entries : List (String × ParamsValues)) :
    List (Nat × ParamsValues) :=
  entries.filterMap fun e =>
    match parseKeyIndex e.1 with
    | none => none
    | some particleIndex =>
        if pyTruthyNum e.2.coverage && pyTruthyNum e.2.score
            && pyTruthyList e.2.alignMatrix then
          some (particleIndex, e.2)
        else none

/-! ### Helper lemmas -/

/-- Within one source file the offset stays fixed: particles carrying the
current `fileName` are written with index `index - a`, and the loop state
is unchanged afterwards. -/
theorem writeIndicesAux_sameFile (idxs : List Int) (f : String) (a : Int)
    (rest : List EmanParticle) :
    writeIndicesAux (idxs.map (EmanParticle.mk f) ++ rest) f a
      = idxs.map (fun i => i - a) ++ writeIndicesAux rest f a := by
  induction idxs with
  | nil => rfl
  | cons i is ih =>
      simpa [writeIndicesAux] using ih

/-- The grouped-particles normal form of the writing loop: for blocks with
pairwise-adjacent distinct filenames, each block gets the offset determined
by its first particle's index. -/
theorem writeIndicesAux_blocks (blocks : List (String × Int × List Int))
    (prev : String) (a : Int)
    (hch : List.Chain' (fun x y => x ≠ y) (prev :: blocks.map Prod.fst)) :
    writeIndicesAux
        (blocks.flatMap fun b => (b.2.1 :: b.2.2).map (EmanParticle.mk b.1)) prev a
      = blocks.flatMap fun b =>
          (b.2.1 :: b.2.2).map fun i => i - if b.2.1 = 0 then (0 : Int) else 1 := by
  induction blocks generalizing prev a with
  | nil => rfl
  | cons b bs ih =>
      obtain ⟨f, i0, is⟩ := b
      have hpf : prev ≠ f := (List.chain'_cons.mp hch).1
      have hch' : List.Chain' (fun x y => x ≠ y) (f :: bs.map Prod.fst) :=
        (List.chain'_cons.mp hch).2
      have key : writeIndicesAux
          (List.map (EmanParticle.mk f) is ++
            bs.flatMap fun b => (b.2.1 :: b.2.2).map (EmanParticle.mk b.1)) f
          (if i0 = 0 then (0 : Int) else 1)
          = List.map (fun i => i - if i0 = 0 then (0 : Int) else 1) is ++
            bs.flatMap (fun b =>
              (b.2.1 :: b.2.2).map fun i => i - if b.2.1 = 0 then (0 : Int) else 1) := by
        rw [writeIndicesAux_sameFile, ih f _ hch']
      simp only [List.flatMap_cons, List.map_cons, List.cons_append, writeIndicesAux,
        if_pos hpf]
      refine congrArg (List.cons _) ?_
      exact key

/-- Degrees of a rational multiple of `π`. -/
theorem rad2deg_pi_mul (c : ℝ) : rad2deg (c * Real.pi) = c * 180 := by
  unfold rad2deg
  field_simp
  ring

/-- The value `arcsin (1/2) = π/6`. -/
theorem arcsin_one_half : Real.arcsin (1 / 2) = Real.pi / 6 := by
  rw [show (1 / 2 : ℝ) = Real.sin (Real.pi / 6) from Real.sin_pi_div_six.symm]
  exact Real.arcsin_sin (by linarith [Real.pi_pos]) (by linarith [Real.pi_pos])

/-! ### Claims -/

/-- C2: the function `calculatePhaseShift` follows exactly the three documented
branches — `arcsin(ampcont/100)` on `(-100, 100]`, `π - arcsin(2 -
ampcont/100)` above `100`, `-π - arcsin(-2 - ampcont/100)` at or below
`-100` — each converted to degrees; at the boundary inputs `-100`, `0`,
`100`, `150`, `-150` it evaluates to `-90`, `0`, `90`, `150`, `-150`
degrees. -/
theorem calculatePhaseShift_branches (a : ℝ) :
    ((-100 < a ∧ a ≤ 100) →
      calculatePhaseShift a = rad2deg (Real.arcsin (a / 100))) ∧
    (a > 100 →
      calculatePhaseShift a = rad2deg (Real.pi - Real.arcsin (2 - a / 100))) ∧
    (a ≤ -100 →
      calculatePhaseShift a = rad2deg (-Real.pi - Real.arcsin (-2 - a / 100))) ∧
    calculatePhaseShift (-100) = -90 ∧
    calculatePhaseShift 0 = 0 ∧
    calculatePhaseShift 100 = 90 ∧
    calculatePhaseShift 150 = 150 ∧
    calculatePhaseShift (-150) = -150 := by
  have hb1 : ∀ x : ℝ, (-100 < x ∧ x ≤ 100) →
      calculatePhaseShift x = rad2deg (Real.arcsin (x / 100)) := by
    intro x hx
    simp only [calculatePhaseShift]
    rw [if_pos hx]
  have hb2 : ∀ x : ℝ, x > 100 →
      calculatePhaseShift x = rad2deg (Real.pi - Real.arcsin (2 - x / 100)) := by
    intro x hx
    simp only [calculatePhaseShift]
    rw [if_neg (by intro h; linarith [h.2]), if_pos hx]
  have hb3 : ∀ x : ℝ, x ≤ -100 →
      calculatePhaseShift x = rad2deg (-Real.pi - Real.arcsin (-2 - x / 100)) := by
    intro x hx
    simp only [calculatePhaseShift]
    rw [if_neg (by intro h; linarith [h.1]), if_neg (by intro h; linarith)]
  refine ⟨hb1 a, hb2 a, hb3 a, ?_, ?_, ?_, ?_, ?_⟩
  · rw [hb3 (-100) (by norm_num)]
    rw [show (-2 - (-100 : ℝ) / 100) = -1 by norm_num, Real.arcsin_neg_one,
      show (-Real.pi - -(Real.pi / 2)) = (-(1 / 2)) * Real.pi by ring, rad2deg_pi_mul]
    norm_num
  · rw [hb1 0 (by norm_num)]
    rw [show ((0 : ℝ) / 100) = 0 by norm_num, Real.arcsin_zero]
    simp [rad2deg]
  · rw [hb1 100 ⟨by norm_num, le_refl _⟩]
    rw [show ((100 : ℝ) / 100) = 1 by norm_num, Real.arcsin_one,
      show (Real.pi / 2) = (1 / 2) * Real.pi by ring, rad2deg_pi_mul]
    norm_num
  · rw [hb2 150 (by norm_num)]
    rw [show (2 - (150 : ℝ) / 100) = 1 / 2 by norm_num, arcsin_one_half,
      show (Real.pi - Real.pi / 6) = (5 / 6) * Real.pi by ring, rad2deg_pi_mul]
    norm_num
  · rw [hb3 (-150) (by norm_num)]
    rw [show (-2 - (-150 : ℝ) / 100) = -(1 / 2) by norm_num, Real.arcsin_neg,
      arcsin_one_half,
      show (-Real.pi - -(Real.pi / 6)) = (-(5 / 6)) * Real.pi by ring, rad2deg_pi_mul]
    norm_num

/-- Witness for C2: the first branch applies at `ampcont = 0`. -/
theorem calculatePhaseShift_branches_witness :
    ((-100 : ℝ) < 0 ∧ (0 : ℝ) ≤ 100) ∧
    calculatePhaseShift 0 = rad2deg (Real.arcsin (0 / 100)) :=
  ⟨⟨by norm_num, by norm_num⟩,
    (calculatePhaseShift_branches 0).1 ⟨by norm_num, by norm_num⟩⟩

/-- C4, counterexample to the claim as stated: a CTF metadata JSON whose
`'ctf_frame'` key is present but carries an unusable (falsy) payload has
no usable record (`keyPos` is `None`), yet `readCTFModel` does not set
the sentinel defocus triple — the model keeps its prior values. -/
theorem readCTFModel_missing_keyPos_cex :
    ctfKeyPos ⟨some none, none, false⟩ = none ∧
    ¬ ((readCTFModel ⟨5, 6, 7, 8, none⟩ ⟨some none, none, false⟩ none).defocusU = -999 ∧
      (readCTFModel ⟨5, 6, 7, 8, none⟩ ⟨some none, none, false⟩ none).defocusV = -1 ∧
      (readCTFModel ⟨5, 6, 7, 8, none⟩ ⟨some none, none, false⟩ none).defocusAngle
        = -999) := by
  refine ⟨rfl, fun h => ?_⟩
  have h5 : (readCTFModel ⟨5, 6, 7, 8, none⟩ ⟨some none, none, false⟩ none).defocusU
      = 5 := rfl
  rw [h5] at h
  exact absurd h.1 (by norm_num)

/-- C4 (amended): when the CTF metadata JSON contains neither the key
`'ctf_frame'` nor the key `'ctf'`, reading the CTF model does not fail and
the model's defocus triple is set to exactly
`(defocusU, defocusV, defocusAngle) = (-999, -1, -999)`. -/
theorem readCTFModel_missing_keys_sentinel (m : CTFModel) (j : EmanCtfJson)
    (psd : Option String) (hf : j.ctf_frame = none) (hc : j.ctf = none) :
    (readCTFModel m j psd).defocusU = -999 ∧
    (readCTFModel m j psd).defocusV = -1 ∧
    (readCTFModel m j psd).defocusAngle = -999 := by
  simp [readCTFModel, ctfKeyPos, hf, hc, setWrongDefocus]

/-- Witness for C4 (amended): both keys absent yields the sentinel
triple. -/
theorem readCTFModel_missing_keys_sentinel_witness :
    ((⟨none, none, true⟩ : EmanCtfJson).ctf_frame = none ∧
      (⟨none, none, true⟩ : EmanCtfJson).ctf = none) ∧
    ((readCTFModel ⟨5, 6, 7, 8, none⟩ ⟨none, none, true⟩ none).defocusU = -999 ∧
      (readCTFModel ⟨5, 6, 7, 8, none⟩ ⟨none, none, true⟩ none).defocusV = -1 ∧
      (readCTFModel ⟨5, 6, 7, 8, none⟩ ⟨none, none, true⟩ none).defocusAngle = -999) :=
  ⟨⟨rfl, rfl⟩, readCTFModel_missing_keys_sentinel ⟨5, 6, 7, 8, none⟩ _ none rfl rfl⟩

/-- C5: for every CTF record read from the metadata, the derived values
satisfy `defocusU = 10000*defocus + 5000*dfdiff`,
`defocusV = 20000*defocus - defocusU`, and `defocusAngle` is passed
through unchanged; in particular `defocus = 1.0`, `dfdiff = 0.2` yields
`defocusU = 11000` and `defocusV = 9000`. -/
theorem readCTFModel_defocus_derivation (m : CTFModel) (j : EmanCtfJson)
    (psd : Option String) (k : CTFRecord) (hk : ctfKeyPos j = some k) :
    (readCTFModel m j psd).defocusU = 10000 * k.defocus + 5000 * k.dfdiff ∧
    (readCTFModel m j psd).defocusV
      = 20000 * k.defocus - (10000 * k.defocus + 5000 * k.dfdiff) ∧
    (readCTFModel m j psd).defocusAngle = k.dfang ∧
    (k.defocus = 1 → k.dfdiff = 0.2 →
      (readCTFModel m j psd).defocusU = 11000 ∧
        (readCTFModel m j psd).defocusV = 9000) := by
  refine ⟨?_, ?_, ?_, ?_⟩
  · simp only [readCTFModel, hk, setStandardDefocus]
    cases j.ctf_im2d <;> cases psd <;> rfl
  · simp only [readCTFModel, hk, setStandardDefocus]
    cases j.ctf_im2d <;> cases psd <;> rfl
  · simp only [readCTFModel, hk, setStandardDefocus]
    cases j.ctf_im2d <;> cases psd <;> rfl
  · intro h1 h2
    constructor
    · simp only [readCTFModel, hk, setStandardDefocus, h1, h2]
      cases j.ctf_im2d <;> cases psd <;> norm_num
    · simp only [readCTFModel, hk, setStandardDefocus, h1, h2]
      cases j.ctf_im2d <;> cases psd <;> norm_num

/-- Witness for C5: a record with `defocus = 1`, `dfdiff = 1/5 = 0.2`
yields the pair `(11000, 9000)`. -/
theorem readCTFModel_defocus_derivation_witness :
    ctfKeyPos ⟨none, some (some ⟨1, 7, 1 / 5, 10⟩), false⟩
        = some ⟨1, 7, 1 / 5, 10⟩ ∧
    ((readCTFModel ⟨0, 0, 0, 0, none⟩ ⟨none, some (some ⟨1, 7, 1 / 5, 10⟩), false⟩
        none).defocusU = 11000 ∧
      (readCTFModel ⟨0, 0, 0, 0, none⟩ ⟨none, some (some ⟨1, 7, 1 / 5, 10⟩), false⟩
        none).defocusV = 9000) :=
  ⟨rfl,
    (readCTFModel_defocus_derivation ⟨0, 0, 0, 0, none⟩
      ⟨none, some (some ⟨1, 7, 1 / 5, 10⟩), false⟩ none ⟨1, 7, 1 / 5, 10⟩
      rfl).2.2.2 rfl (by norm_num)⟩

/-- C3: stack-index normalisation in `writeSetOfParticles` /
`convertReferences`.  For every sequence of particles grouped by source
file (each file forming one consecutive block, filenames distinct and
nonempty), if the model index of the first particle of a file is `0` then
no offset is applied to any index of that file, and otherwise `1` is
subtracted from every index written for that file. -/
theorem writeSetOfParticles_index_normalization
    (blocks : List (String × Int × List Int))
    (hne : ∀ b ∈ blocks, b.1 ≠ "")
    (hdist : (blocks.map Prod.fst).Pairwise (fun x y => x ≠ y)) :
    writeSetOfParticlesIndices
        (blocks.flatMap fun b => (b.2.1 :: b.2.2).map (EmanParticle.mk b.1))
      = blocks.flatMap fun b =>
          (b.2.1 :: b.2.2).map fun i => i - if b.2.1 = 0 then (0 : Int) else 1 := by
  apply writeIndicesAux_blocks
  apply List.Chain'.cons'
  · exact hdist.chain'
  · intro y hy
    cases blocks with
    | nil => simp at hy
    | cons b bs =>
        simp only [List.map_cons, List.head?_cons, Option.mem_def, Option.some.injEq] at hy
        exact fun h => hne b (by simp) (h ▸ hy ▸ rfl)

/-- Witness for C3: two files, the first starting at model index `0`
(no offset), the second at `1` (offset `-1` throughout). -/
theorem writeSetOfParticles_index_normalization_witness :
    ((∀ b ∈ [("f1", (0 : Int), [(5 : Int)]), ("f2", 1, [3])], b.1 ≠ "") ∧
      (([("f1", (0 : Int), [(5 : Int)]), ("f2", 1, [3])].map Prod.fst).Pairwise
        fun x y => x ≠ y)) ∧
    writeSetOfParticlesIndices
        ([("f1", (0 : Int), [(5 : Int)]), ("f2", 1, [3])].flatMap fun b =>
          (b.2.1 :: b.2.2).map (EmanParticle.mk b.1))
      = [("f1", (0 : Int), [(5 : Int)]), ("f2", 1, [3])].flatMap fun b =>
          (b.2.1 :: b.2.2).map fun i => i - if b.2.1 = 0 then (0 : Int) else 1 :=
  ⟨⟨by decide, by decide⟩,
    writeSetOfParticles_index_normalization _ (by decide) (by decide)⟩

/-- C7: the function `iterLstFile` skips every line containing `'#'`, and a data line
whose first token parses as the integer `n` yields the pair
`(n + 1, second token)` — the exposed index is the 0-based index plus
one. -/
theorem iterLstFile_spec (line : String) (rest : List String) :
    (pyContains line '#' = true → iterLstFile (line :: rest) = iterLstFile rest) ∧
    (∀ t0 t1 : String, ∀ ts : List String, ∀ n : Int,
      pyContains line '#' = false → pySplit line = t0 :: t1 :: ts →
      pyToInt t0 = some n →
      iterLstFile (line :: rest)
        = (iterLstFile rest).map fun l => (n + 1, t1) :: l) := by
  constructor
  · intro h
    simp [iterLstFile, h]
  · intro t0 t1 ts n hc hsplit hint
    simp [iterLstFile, hc, hsplit, hint]

/-- Witness for C7: a comment line is dropped and the data line
`"12 b.hdf"` yields index `13`. -/
theorem iterLstFile_spec_witness :
    (pyContains "# comment" '#' = true ∧
      iterLstFile ["# comment", "12 b.hdf"] = iterLstFile ["12 b.hdf"]) ∧
    (pyContains "12 b.hdf" '#' = false ∧
      pySplit "12 b.hdf" = ["12", "b.hdf"] ∧
      pyToInt "12" = some 12 ∧
      iterLstFile ["12 b.hdf"]
        = (iterLstFile []).map fun l => ((12 : Int) + 1, "b.hdf") :: l) :=
  ⟨⟨by decide, (iterLstFile_spec "# comment" ["12 b.hdf"]).1 (by decide)⟩,
    by decide,
    by decide,
    by decide,
    (iterLstFile_spec "12 b.hdf" []).2 "12" "b.hdf" [] 12 (by decide) (by decide)
      (by decide)⟩

/-- C8: 2D box parsing in `readCoordinates`.  Each box with at least two
elements emits exactly one coordinate associated with the given
micrograph, with `y` replaced by `micHeight - y` when `invertY`; in
particular `invertY = true`, `micHeight = 100` on box `[10, 20]` yields
the coordinate `(10, 80)`. -/
theorem readCoordinates_spec (micId : Nat) (yDim : ℚ) (invertY : Bool)
    (x y : ℚ) (rb : List ℚ) (boxes : List (List ℚ)) :
    readCoordinates true micId yDim (some []) invertY = some [] ∧
    readCoordinates true micId yDim (some ((x :: y :: rb) :: boxes)) invertY
      = (readCoordinates true micId yDim (some boxes) invertY).map
          (fun l => ⟨x, if invertY then yDim - y else y, micId⟩ :: l) ∧
    readCoordinates true 7 100 (some [[10, 20]]) true
      = some [⟨10, 80, 7⟩] := by
  refine ⟨rfl, ?_, by norm_num [readCoordinates, List.mapM, List.mapM.loop]⟩
  simp only [readCoordinates, if_pos rfl, List.mapM_cons]
  cases hm : (boxes.mapM fun box =>
      match box with
      | x :: y :: _ =>
          some (⟨x, if invertY then yDim - y else y, micId⟩ : EmanCoord)
      | _ => none) <;> simp [hm]

/-- C9: when input bispectra are used and the bispectra set's size differs
from the particle set's size, `convertImagesStep` raises the descriptive
error before creating any link: no partial processing of the bispectra
takes place. -/
theorem convertImagesStep_size_mismatch (bispecSize partSetSize : Nat)
    (hdfFiles : List String) (extraParticlesPath lstFn newLstFn : String)
    (h : bispecSize ≠ partSetSize) :
    convertImagesBispecLinks true bispecSize partSetSize hdfFiles
        extraParticlesPath lstFn newLstFn
      = Except.error "Input particles and bispectra sets have different size!" := by
  simp [convertImagesBispecLinks, h]

/-- Witness for C9: sizes `2` and `3` produce the error and no links. -/
theorem convertImagesStep_size_mismatch_witness :
    (2 : Nat) ≠ 3 ∧
    convertImagesBispecLinks true 2 3 ["x/p1.hdf"] "extra/particles" "l" "n"
      = Except.error "Input particles and bispectra sets have different size!" :=
  ⟨by decide, convertImagesStep_size_mismatch 2 3 _ _ _ _ (by decide)⟩

/-- C10: the function `getLastParticlesParams` filters on Python truthiness, not
presence: an entry whose `coverage` or `score` is `0` or absent, or whose
align matrix is absent or empty, contributes nothing to the returned
mapping. -/
theorem getLastParticlesParams_truthiness (key : String) (v : ParamsValues)
    (rest : List (String × ParamsValues))
    (h : v.coverage = none ∨ v.coverage = some 0 ∨ v.score = none ∨ v.score = some 0 ∨
      v.alignMatrix = none ∨ v.alignMatrix = some []) :
    getLastParticlesParams ((key, v) :: rest) = getLastParticlesParams rest := by
  simp only [getLastParticlesParams, List.filterMap_cons]
  cases hk : parseKeyIndex key
  · rfl
  · rcases h with h | h | h | h | h | h <;>
      simp [pyTruthyNum, pyTruthyList, h]

/-- Witness for C10: an entry with `coverage = 0.0` is dropped just like
an absent one. -/
theorem getLastParticlesParams_truthiness_witness :
    ((⟨some 0, some 2, some [1]⟩ : ParamsValues).coverage = none ∨
      (⟨some 0, some 2, some [1]⟩ : ParamsValues).coverage = some 0 ∨
      (⟨some 0, some 2, some [1]⟩ : ParamsValues).score = none ∨
      (⟨some 0, some 2, some [1]⟩ : ParamsValues).score = some 0 ∨
      (⟨some 0, some 2, some [1]⟩ : ParamsValues).alignMatrix = none ∨
      (⟨some 0, some 2, some [1]⟩ : ParamsValues).alignMatrix = some []) ∧
    getLastParticlesParams
        [("(a, 1)", ⟨some 0, some 2, some [1]⟩), ("(a, 2)", ⟨some 1, some 2, some [1]⟩)]
      = getLastParticlesParams [("(a, 2)", ⟨some 1, some 2, some [1]⟩)] :=
  ⟨by decide,
    getLastParticlesParams_truthiness "(a, 1)" ⟨some 0, some 2, some [1]⟩ _ (by decide)⟩

theorem rigid_rows (M : Mat4) (h : IsRigidOrtho M) :
    rotBlock M * Matrix.transpose (rotBlock M) = 1 :=
  Matrix.mul_eq_one_comm.mp h.1

theorem rigid_adjugate (M : Mat4) (hM : IsProperRigid M) :
    Matrix.transpose (rotBlock M) = (rotBlock M).adjugate := by
  have h1 : rotBlock M * (rotBlock M).adjugate = 1 := by
    rw [Matrix.mul_adjugate, hM.2, one_smul]
  calc Matrix.transpose (rotBlock M)
      = Matrix.transpose (rotBlock M) * (rotBlock M * (rotBlock M).adjugate) := by
        rw [h1, mul_one]
    _ = Matrix.transpose (rotBlock M) * rotBlock M * (rotBlock M).adjugate := by
        rw [mul_assoc]
    _ = (rotBlock M).adjugate := by rw [hM.1.1, one_mul]

/-- The six distinct row-orthonormality equations of a rigid transform. -/
theorem rigid_row_facts (M : Mat4) (h : IsRigidOrtho M) :
    (M 0 0 * M 0 0 + M 0 1 * M 0 1 + M 0 2 * M 0 2 = 1) ∧
    (M 0 0 * M 1 0 + M 0 1 * M 1 1 + M 0 2 * M 1 2 = 0) ∧
    (M 0 0 * M 2 0 + M 0 1 * M 2 1 + M 0 2 * M 2 2 = 0) ∧
    (M 1 0 * M 1 0 + M 1 1 * M 1 1 + M 1 2 * M 1 2 = 1) ∧
    (M 1 0 * M 2 0 + M 1 1 * M 2 1 + M 1 2 * M 2 2 = 0) ∧
    (M 2 0 * M 2 0 + M 2 1 * M 2 1 + M 2 2 * M 2 2 = 1) := by
  have hr := rigid_rows M h
  have h00 := congrFun (congrFun hr 0) 0
  have h01 := congrFun (congrFun hr 0) 1
  have h02 := congrFun (congrFun hr 0) 2
  have h11 := congrFun (congrFun hr 1) 1
  have h12 := congrFun (congrFun hr 1) 2
  have h22 := congrFun (congrFun hr 2) 2
  simp only [Matrix.mul_apply, Fin.sum_univ_three, Matrix.transpose_apply]
    at h00 h01 h02 h11 h12 h22
  simp [rotBlock, Matrix.one_apply] at h00 h01 h02 h11 h12 h22
  exact ⟨by linear_combination h00, by linear_combination h01, by linear_combination h02,
    by linear_combination h11, by linear_combination h12, by linear_combination h22⟩

/-- The six distinct column-orthonormality equations of a rigid
transform. -/
theorem rigid_col_facts (M : Mat4) (h : IsRigidOrtho M) :
    (M 0 0 * M 0 0 + M 1 0 * M 1 0 + M 2 0 * M 2 0 = 1) ∧
    (M 0 0 * M 0 1 + M 1 0 * M 1 1 + M 2 0 * M 2 1 = 0) ∧
    (M 0 0 * M 0 2 + M 1 0 * M 1 2 + M 2 0 * M 2 2 = 0) ∧
    (M 0 1 * M 0 1 + M 1 1 * M 1 1 + M 2 1 * M 2 1 = 1) ∧
    (M 0 1 * M 0 2 + M 1 1 * M 1 2 + M 2 1 * M 2 2 = 0) ∧
    (M 0 2 * M 0 2 + M 1 2 * M 1 2 + M 2 2 * M 2 2 = 1) := by
  have hc := h.1
  have h00 := congrFun (congrFun hc 0) 0
  have h01 := congrFun (congrFun hc 0) 1
  have h02 := congrFun (congrFun hc 0) 2
  have h11 := congrFun (congrFun hc 1) 1
  have h12 := congrFun (congrFun hc 1) 2
  have h22 := congrFun (congrFun hc 2) 2
  simp only [Matrix.mul_apply, Fin.sum_univ_three, Matrix.transpose_apply]
    at h00 h01 h02 h11 h12 h22
  simp [rotBlock, Matrix.one_apply] at h00 h01 h02 h11 h12 h22
  exact ⟨by linear_combination h00, by linear_combination h01, by linear_combination h02,
    by linear_combination h11, by linear_combination h12, by linear_combination h22⟩

/-- Every entry of a proper-rotation block equals its cofactor. -/
theorem rigid_cofactor_facts (M : Mat4) (hM : IsProperRigid M) :
    (M 0 0 = M 1 1 * M 2 2 - M 1 2 * M 2 1) ∧
    (M 1 0 = M 2 1 * M 0 2 - M 2 2 * M 0 1) ∧
    (M 2 0 = M 0 1 * M 1 2 - M 0 2 * M 1 1) ∧
    (M 0 1 = M 1 2 * M 2 0 - M 1 0 * M 2 2) ∧
    (M 1 1 = M 2 2 * M 0 0 - M 2 0 * M 0 2) ∧
    (M 2 1 = M 0 2 * M 1 0 - M 0 0 * M 1 2) ∧
    (M 0 2 = M 1 0 * M 2 1 - M 1 1 * M 2 0) ∧
    (M 1 2 = M 2 0 * M 0 1 - M 2 1 * M 0 0) ∧
    (M 2 2 = M 0 0 * M 1 1 - M 0 1 * M 1 0) := by
  have ha := rigid_adjugate M hM
  rw [Matrix.adjugate_fin_three] at ha
  have e00 := congrFun (congrFun ha 0) 0
  have e01 := congrFun (congrFun ha 0) 1
  have e02 := congrFun (congrFun ha 0) 2
  have e10 := congrFun (congrFun ha 1) 0
  have e11 := congrFun (congrFun ha 1) 1
  have e12 := congrFun (congrFun ha 1) 2
  have e20 := congrFun (congrFun ha 2) 0
  have e21 := congrFun (congrFun ha 2) 1
  have e22 := congrFun (congrFun ha 2) 2
  simp only [Matrix.transpose_apply] at e00 e01 e02 e10 e11 e12 e20 e21 e22
  simp [rotBlock] at e00 e01 e02 e10 e11 e12 e20 e21 e22
  exact ⟨by linear_combination e00, by linear_combination e01, by linear_combination e02,
    by linear_combination e10, by linear_combination e11, by linear_combination e12,
    by linear_combination e20, by linear_combination e21, by linear_combination e22⟩


end Eman2

namespace Eman2

theorem sqrt_mul_sin_atan2 (y x : ℝ) :
    Real.sqrt (x * x + y * y) * Real.sin (atan2 y x) = y := by
  unfold atan2
  rw [Complex.sin_arg, show (⟨x, y⟩ : ℂ).im = y from rfl,
    show Complex.abs ⟨x, y⟩ = Real.sqrt (x * x + y * y) by
      rw [Complex.abs_apply, Complex.normSq_mk]]
  rcases eq_or_ne (Real.sqrt (x * x + y * y)) 0 with h | h
  · have hy : y = 0 := by
      have h2 := Real.sqrt_eq_zero'.mp h
      nlinarith [mul_self_nonneg x, mul_self_nonneg y]
    rw [h, hy]
    simp
  · field_simp

theorem sqrt_mul_cos_atan2 (y x : ℝ) (h : ¬(x = 0 ∧ y = 0)) :
    Real.sqrt (x * x + y * y) * Real.cos (atan2 y x) = x := by
  unfold atan2
  have hz : (⟨x, y⟩ : ℂ) ≠ 0 := by
    intro h0
    have h1 := Complex.ext_iff.mp h0
    exact h ⟨by simpa using h1.1, by simpa using h1.2⟩
  rw [Complex.cos_arg hz, show (⟨x, y⟩ : ℂ).re = x from rfl,
    show Complex.abs ⟨x, y⟩ = Real.sqrt (x * x + y * y) by
      rw [Complex.abs_apply, Complex.normSq_mk]]
  have hs : Real.sqrt (x * x + y * y) ≠ 0 := by
    intro h0
    have h2 := Real.sqrt_eq_zero'.mp h0
    exact h ⟨by nlinarith [mul_self_nonneg x, mul_self_nonneg y],
      by nlinarith [mul_self_nonneg x, mul_self_nonneg y]⟩
  field_simp

theorem atan2_zero_one : atan2 0 1 = 0 := by
  unfold atan2
  rw [show (⟨1, 0⟩ : ℂ) = 1 from Complex.ext rfl rfl]
  exact Complex.arg_one

theorem atan2_zero_neg_one : atan2 0 (-1) = Real.pi := by
  unfold atan2
  rw [show (⟨-1, 0⟩ : ℂ) = -1 from Complex.ext (by simp) (by simp)]
  exact Complex.arg_neg_one

theorem deg2rad_rad2deg (x : ℝ) : deg2rad (rad2deg x) = x := by
  unfold deg2rad rad2deg
  field_simp

theorem radAngles_id (v : ℝ × ℝ × ℝ) :
    neg3 (deg2rad3 (neg3 (rad2deg3 v))) = v := by
  obtain ⟨a, b, c⟩ := v
  simp [neg3, deg2rad3, rad2deg3, deg2rad, rad2deg]
  constructor
  · field_simp
  constructor
  · field_simp
  · field_simp

/-- Rebuilding the rotation from its szyz Euler angles recovers it. -/
theorem euler_matrix_euler_from_matrix (M : Mat4) (hM : IsProperRigid M) :
    euler_matrix (euler_from_matrix M).1 (euler_from_matrix M).2.1
      (euler_from_matrix M).2.2 = rotOnly M := by
  obtain ⟨r00, r01, r02, r11, r12, r22⟩ := rigid_row_facts M hM.1
  obtain ⟨c00, c01, c02, c11, c12, c22⟩ := rigid_col_facts M hM.1
  obtain ⟨e00, e10, e20, e01, e11, e21, e02, e12, e22⟩ := rigid_cofactor_facts M hM
  by_cases hsy : Real.sqrt (M 2 1 * M 2 1 + M 2 0 * M 2 0) > eulerEPS
  · rw [show euler_from_matrix M = (-(atan2 (M 2 1) (M 2 0)),
      -(atan2 (Real.sqrt (M 2 1 * M 2 1 + M 2 0 * M 2 0)) (M 2 2)),
      -(atan2 (M 1 2) (-(M 0 2)))) by rw [euler_from_matrix, if_pos hsy]]
    have hsy0 : (0 : ℝ) < Real.sqrt (M 2 1 * M 2 1 + M 2 0 * M 2 0) := by
      simpa [eulerEPS] using hsy
    set S := Real.sqrt (M 2 1 * M 2 1 + M 2 0 * M 2 0) with hSdef
    have hsyne : S ≠ 0 := ne_of_gt hsy0
    have hsq : S * S = M 2 1 * M 2 1 + M 2 0 * M 2 0 :=
      Real.mul_self_sqrt (add_nonneg (mul_self_nonneg _) (mul_self_nonneg _))
    have hax : ¬(M 2 0 = 0 ∧ M 2 1 = 0) := by
      rintro ⟨h0, h1⟩
      apply hsyne
      rw [hSdef, h0, h1]
      simp
    have FAs : S * Real.sin (atan2 (M 2 1) (M 2 0)) = M 2 1 := by
      have h := sqrt_mul_sin_atan2 (M 2 1) (M 2 0)
      rwa [show M 2 0 * M 2 0 + M 2 1 * M 2 1 = M 2 1 * M 2 1 + M 2 0 * M 2 0 from by
        ring, ← hSdef] at h
    have FAc : S * Real.cos (atan2 (M 2 1) (M 2 0)) = M 2 0 := by
      have h := sqrt_mul_cos_atan2 (M 2 1) (M 2 0) hax
      rwa [show M 2 0 * M 2 0 + M 2 1 * M 2 1 = M 2 1 * M 2 1 + M 2 0 * M 2 0 from by
        ring, ← hSdef] at h
    have hone : M 2 2 * M 2 2 + S * S = 1 := by
      rw [hsq]
      linear_combination r22
    have FBs : Real.sin (atan2 S (M 2 2)) = S := by
      have h := sqrt_mul_sin_atan2 S (M 2 2)
      rwa [hone, Real.sqrt_one, one_mul] at h
    have FBc : Real.cos (atan2 S (M 2 2)) = M 2 2 := by
      have h := sqrt_mul_cos_atan2 S (M 2 2) (by rintro ⟨-, h1⟩; exact hsyne h1)
      rwa [hone, Real.sqrt_one, one_mul] at h
    have hsz : -M 0 2 * -M 0 2 + M 1 2 * M 1 2 = M 2 1 * M 2 1 + M 2 0 * M 2 0 := by
      linear_combination c22 - r22
    have haz : ¬(-M 0 2 = 0 ∧ M 1 2 = 0) := by
      rintro ⟨h0, h1⟩
      apply hsyne
      rw [hSdef, ← hsz, h0, h1]
      simp
    have FCs : S * Real.sin (atan2 (M 1 2) (-M 0 2)) = M 1 2 := by
      have h := sqrt_mul_sin_atan2 (M 1 2) (-M 0 2)
      rwa [hsz, ← hSdef] at h
    have FCc : S * Real.cos (atan2 (M 1 2) (-M 0 2)) = -M 0 2 := by
      have h := sqrt_mul_cos_atan2 (M 1 2) (-M 0 2) haz
      rwa [hsz, ← hSdef] at h
    ext i j
    fin_cases i <;> fin_cases j <;> simp [euler_matrix, rotOnly]
    · rw [FBc]
      refine mul_left_cancel₀ (mul_ne_zero hsyne hsyne) ?_
      linear_combination (M 2 2 * (S * Real.cos (atan2 (M 1 2) (-M 0 2)))) * FAc +
        (M 2 2 * M 2 0) * FCc + (-(S * Real.sin (atan2 (M 1 2) (-M 0 2)))) * FAs +
        (-(M 2 1)) * FCs + (-(M 0 0)) * hsq + (-(M 0 0)) * r22 + (-1) * e00 +
        (-(M 2 2)) * e11
    · rw [FBc]
      refine mul_left_cancel₀ (mul_ne_zero hsyne hsyne) ?_
      linear_combination (M 2 2 * (S * Real.cos (atan2 (M 1 2) (-M 0 2)))) * FAs +
        (M 2 2 * M 2 1) * FCc + (S * Real.sin (atan2 (M 1 2) (-M 0 2))) * FAc +
        (M 2 0) * FCs + (-(M 0 1)) * hsq + (-(M 0 1)) * r22 + (-1) * e01 +
        (M 2 2) * e10
    · rw [FBs, FCc, neg_neg]
    · rw [FBc]
      refine mul_left_cancel₀ (mul_ne_zero hsyne hsyne) ?_
      linear_combination (-(M 2 2) * (S * Real.sin (atan2 (M 1 2) (-M 0 2)))) * FAc +
        (-(M 2 2) * M 2 0) * FCs + (-(S * Real.cos (atan2 (M 1 2) (-M 0 2)))) * FAs +
        (-(M 2 1)) * FCc + (-(M 1 0)) * hsq + (-(M 1 0)) * r22 + (-1) * e10 +
        (M 2 2) * e01
    · rw [FBc]
      refine mul_left_cancel₀ (mul_ne_zero hsyne hsyne) ?_
      linear_combination (-(M 2 2) * (S * Real.sin (atan2 (M 1 2) (-M 0 2)))) * FAs +
        (-(M 2 2) * M 2 1) * FCs + (S * Real.cos (atan2 (M 1 2) (-M 0 2))) * FAc +
        (M 2 0) * FCc + (-(M 1 1)) * hsq + (-(M 1 1)) * r22 + (-1) * e11 +
        (-(M 2 2)) * e00
    · rw [FBs]
      exact FCs
    · rw [FBs]
      exact FAc
    · rw [FBs]
      exact FAs
    · exact FBc
  · have hsum : M 2 1 * M 2 1 + M 2 0 * M 2 0 ≤ 0 := by
      simpa [eulerEPS] using hsy
    have hS0 : Real.sqrt (M 2 1 * M 2 1 + M 2 0 * M 2 0) = 0 :=
      Real.sqrt_eq_zero'.mpr hsum
    have h21 : M 2 1 = 0 := by
      refine mul_self_eq_zero.mp (le_antisymm ?_ (mul_self_nonneg _))
      linarith [mul_self_nonneg (M 2 0)]
    have h20 : M 2 0 = 0 := by
      refine mul_self_eq_zero.mp (le_antisymm ?_ (mul_self_nonneg _))
      linarith [mul_self_nonneg (M 2 1)]
    have h22sq : M 2 2 * M 2 2 = 1 := by
      linear_combination r22 - M 2 0 * h20 - M 2 1 * h21
    have hsum2 : M 0 2 * M 0 2 + M 1 2 * M 1 2 = 0 := by
      linear_combination c22 - h22sq
    have h02 : M 0 2 = 0 := by
      refine mul_self_eq_zero.mp (le_antisymm ?_ (mul_self_nonneg _))
      linarith [mul_self_nonneg (M 1 2)]
    have h12 : M 1 2 = 0 := by
      refine mul_self_eq_zero.mp (le_antisymm ?_ (mul_self_nonneg _))
      linarith [mul_self_nonneg (M 0 2)]
    have hone1 : M 1 1 * M 1 1 + -M 1 0 * -M 1 0 = 1 := by
      linear_combination r11 - M 1 2 * h12
    have FAs2 : Real.sin (atan2 (-M 1 0) (M 1 1)) = -M 1 0 := by
      have h := sqrt_mul_sin_atan2 (-M 1 0) (M 1 1)
      rwa [hone1, Real.sqrt_one, one_mul] at h
    have FAc2 : Real.cos (atan2 (-M 1 0) (M 1 1)) = M 1 1 := by
      have hnz : ¬(M 1 1 = 0 ∧ -M 1 0 = 0) := by
        rintro ⟨ha, hb⟩
        rw [ha, hb] at hone1
        norm_num at hone1
      have h := sqrt_mul_cos_atan2 (-M 1 0) (M 1 1) hnz
      rwa [hone1, Real.sqrt_one, one_mul] at h
    rw [show euler_from_matrix M = (-(atan2 (-(M 1 0)) (M 1 1)),
      -(atan2 (Real.sqrt (M 2 1 * M 2 1 + M 2 0 * M 2 0)) (M 2 2)), -0) from by
        rw [euler_from_matrix, if_neg hsy], hS0]
    have hcase : (M 2 2 - 1) * (M 2 2 + 1) = 0 := by linear_combination h22sq
    rcases mul_eq_zero.mp hcase with hc | hc
    · have hM22 : M 2 2 = 1 := by linarith [sub_eq_zero.mp hc]
      have hA : M 0 0 = M 1 1 := by
        linear_combination e00 + M 1 1 * hM22 - M 2 1 * h12
      have hB : M 0 1 = -M 1 0 := by
        linear_combination e01 + M 1 2 * h20 - M 1 0 * hM22
      rw [hM22, atan2_zero_one]
      ext i j
      fin_cases i <;> fin_cases j <;>
        simp [euler_matrix, rotOnly, FAs2, FAc2, h20, h21, h02, h12, hM22, hA, hB]
    · have hM22 : M 2 2 = -1 := by linarith [eq_neg_of_add_eq_zero_left hc]
      have hA : M 0 0 = -M 1 1 := by
        linear_combination e00 + M 1 1 * hM22 - M 2 1 * h12
      have hB : M 0 1 = M 1 0 := by
        linear_combination e01 + M 1 2 * h20 - M 1 0 * hM22
      rw [hM22, atan2_zero_neg_one]
      ext i j
      fin_cases i <;> fin_cases j <;>
        simp [euler_matrix, rotOnly, FAs2, FAc2, h20, h21, h02, h12, hM22, hA, hB]

theorem neg3_neg3 (v : ℝ × ℝ × ℝ) : neg3 (neg3 v) = v := by
  simp [neg3]

/-- Refilling the translation column of `rotOnly N` with the translation
of `N` recovers `N`, for `N` with last row `[0, 0, 0, 1]`. -/
theorem setTranslation_rotOnly (N : Mat4) (h30 : N 3 0 = 0) (h31 : N 3 1 = 0)
    (h32 : N 3 2 = 0) (h33 : N 3 3 = 1) :
    setTranslation (rotOnly N) (translation_from_matrix N) = N := by
  ext i j
  fin_cases i <;> fin_cases j <;>
    simp [setTranslation, rotOnly, translation_from_matrix, h30, h31, h32, h33]

theorem mul_rigidInverse (M : Mat4) (h : IsRigidOrtho M) :
    M * rigidInverse M = 1 := by
  obtain ⟨r00, r01, r02, r11, r12, r22⟩ := rigid_row_facts M h
  obtain ⟨-, h30, h31, h32, h33⟩ := h
  ext i j
  fin_cases i <;> fin_cases j <;>
    simp +decide [Matrix.mul_apply, Fin.sum_univ_four, rigidInverse,
      Matrix.one_apply]
  · linear_combination r00
  · linear_combination r01
  · linear_combination r02
  · linear_combination (-(M 0 3)) * r00 + (-(M 1 3)) * r01 + (-(M 2 3)) * r02
  · linear_combination r01
  · linear_combination r11
  · linear_combination r12
  · linear_combination (-(M 0 3)) * r01 + (-(M 1 3)) * r11 + (-(M 2 3)) * r12
  · linear_combination r02
  · linear_combination r12
  · linear_combination r22
  · linear_combination (-(M 0 3)) * r02 + (-(M 1 3)) * r12 + (-(M 2 3)) * r22
  · linear_combination M 0 0 * h30 + M 0 1 * h31 + M 0 2 * h32
  · linear_combination M 1 0 * h30 + M 1 1 * h31 + M 1 2 * h32
  · linear_combination M 2 0 * h30 + M 2 1 * h31 + M 2 2 * h32
  · linear_combination (-(M 0 0 * M 0 3 + M 1 0 * M 1 3 + M 2 0 * M 2 3)) * h30 +
      (-(M 0 1 * M 0 3 + M 1 1 * M 1 3 + M 2 1 * M 2 3)) * h31 +
      (-(M 0 2 * M 0 3 + M 1 2 * M 1 3 + M 2 2 * M 2 3)) * h32 + h33

theorem rigidInverse_mul (M : Mat4) (h : IsRigidOrtho M) :
    rigidInverse M * M = 1 :=
  Matrix.mul_eq_one_comm.mp (mul_rigidInverse M h)

theorem rotBlock_rigidInverse (M : Mat4) :
    rotBlock (rigidInverse M) = Matrix.transpose (rotBlock M) := by
  ext i j
  fin_cases i <;> fin_cases j <;> rfl

theorem isProperRigid_rigidInverse (M : Mat4) (hM : IsProperRigid M) :
    IsProperRigid (rigidInverse M) := by
  refine ⟨⟨?_, rfl, rfl, rfl, rfl⟩, ?_⟩
  · rw [rotBlock_rigidInverse, Matrix.transpose_transpose]
    exact rigid_rows M hM.1
  · rw [rotBlock_rigidInverse, Matrix.det_transpose]
    exact hM.2

/-- C1 (amended): round-trip of the transform converter.  For every rigid
transform matrix whose rotation block is orthonormal with determinant `+1`
and whose last row is `[0, 0, 0, 1]`, and for each value of the inverse
flag, feeding the shifts and angles produced by `geometryFromMatrix` back
into `matrixFromGeometry` with the same flag returns the matrix exactly
(over the reals, hence within floating-point tolerance). -/
theorem matrixFromGeometry_geometryFromMatrix (M : Mat4) (hM : IsProperRigid M)
    (inv : Bool) :
    matrixFromGeometry (geometryFromMatrix M inv).1 (geometryFromMatrix M inv).2 inv
      = M := by
  obtain ⟨⟨horth, h30, h31, h32, h33⟩, hdet⟩ := hM
  cases inv
  · simp only [geometryFromMatrix, matrixFromGeometry, Bool.false_eq_true, if_false]
    rw [radAngles_id, euler_matrix_euler_from_matrix M ⟨⟨horth, h30, h31, h32, h33⟩, hdet⟩]
    exact setTranslation_rotOnly M h30 h31 h32 h33
  · have hinv : M⁻¹ = rigidInverse M :=
      Matrix.inv_eq_right_inv (mul_rigidInverse M ⟨horth, h30, h31, h32, h33⟩)
    simp only [geometryFromMatrix, matrixFromGeometry, if_true]
    rw [hinv, radAngles_id,
      euler_matrix_euler_from_matrix (rigidInverse M)
        (isProperRigid_rigidInverse M ⟨⟨horth, h30, h31, h32, h33⟩, hdet⟩),
      neg3_neg3, setTranslation_rotOnly _ rfl rfl rfl rfl]
    exact Matrix.inv_eq_right_inv (rigidInverse_mul M ⟨horth, h30, h31, h32, h33⟩)

theorem cexMatrix_rigidOrtho : IsRigidOrtho cexMatrix := by
  refine ⟨?_, rfl, rfl, rfl, rfl⟩
  ext i j
  fin_cases i <;> fin_cases j <;>
    simp only [Matrix.mul_apply, Fin.sum_univ_three, Matrix.transpose_apply] <;>
    simp +decide [cexMatrix, rotBlock, Matrix.one_apply, Matrix.vecHead,
      Matrix.vecTail, Function.comp]

theorem cex_euler : euler_from_matrix cexMatrix = (0, -Real.pi, 0) := by
  rw [euler_from_matrix]
  norm_num [cexMatrix, eulerEPS, Real.sqrt_zero, atan2_zero_one, atan2_zero_neg_one,
    Matrix.vecHead, Matrix.vecTail, Function.comp]

theorem cex_roundtrip_entry :
    matrixFromGeometry (geometryFromMatrix cexMatrix false).1
      (geometryFromMatrix cexMatrix false).2 false 0 0 = -1 := by
  have hL : matrixFromGeometry (geometryFromMatrix cexMatrix false).1
      (geometryFromMatrix cexMatrix false).2 false
      = setTranslation (euler_matrix 0 (-Real.pi) 0)
          (translation_from_matrix cexMatrix) := by
    simp only [geometryFromMatrix, matrixFromGeometry, Bool.false_eq_true, if_false,
      cex_euler]
    rw [radAngles_id]
  rw [hL]
  simp [setTranslation, euler_matrix]

/-- C1, counterexample to the claim as stated: the claim admits every
matrix with an orthonormal rotation block, but for the reflection
`diag(1, 1, -1, 1)` (determinant `-1`) the round trip with
`inverse = false` does not return the matrix: the rebuilt entry `(0,0)`
is `-1` instead of `1`. -/
theorem roundtrip_claim_cex :
    IsRigidOrtho cexMatrix ∧
    matrixFromGeometry (geometryFromMatrix cexMatrix false).1
        (geometryFromMatrix cexMatrix false).2 false ≠ cexMatrix := by
  refine ⟨cexMatrix_rigidOrtho, fun h => ?_⟩
  have h00 := congrFun (congrFun h 0) 0
  rw [cex_roundtrip_entry] at h00
  have : cexMatrix 0 0 = 1 := rfl
  rw [this] at h00
  norm_num at h00

theorem rigidWitnessMatrix_properRigid : IsProperRigid rigidWitnessMatrix := by
  refine ⟨⟨?_, rfl, rfl, rfl, rfl⟩, ?_⟩
  · ext i j
    fin_cases i <;> fin_cases j <;>
      simp only [Matrix.mul_apply, Fin.sum_univ_three, Matrix.transpose_apply] <;>
      simp +decide [rigidWitnessMatrix, rotBlock, Matrix.one_apply, Matrix.vecHead,
        Matrix.vecTail, Function.comp]
  · rw [Matrix.det_fin_three]
    norm_num [rigidWitnessMatrix, rotBlock]

/-- Witness for C1 (amended): a translation by `(2, 3, 4)` with identity
rotation round-trips for both values of the inverse flag. -/
theorem roundtrip_witness_both :
    IsProperRigid rigidWitnessMatrix ∧
    matrixFromGeometry (geometryFromMatrix rigidWitnessMatrix false).1
        (geometryFromMatrix rigidWitnessMatrix false).2 false = rigidWitnessMatrix ∧
    matrixFromGeometry (geometryFromMatrix rigidWitnessMatrix true).1
        (geometryFromMatrix rigidWitnessMatrix true).2 true = rigidWitnessMatrix :=
  ⟨rigidWitnessMatrix_properRigid,
    matrixFromGeometry_geometryFromMatrix rigidWitnessMatrix
      rigidWitnessMatrix_properRigid false,
    matrixFromGeometry_geometryFromMatrix rigidWitnessMatrix
      rigidWitnessMatrix_properRigid true⟩

/-- C6: with `inverse = true`, `geometryFromMatrix` first inverts the
matrix and negates the translation extracted from the inverted matrix,
while with `inverse = false` it uses the extracted translation directly;
in both cases the returned angles are the szyz Euler decomposition of the
possibly inverted matrix, negated and converted from radians to degrees,
and the returned shifts are as extracted (not further transformed). -/
theorem geometryFromMatrix_follows_spec (M : Mat4) :
    geometryFromMatrix M true
      = (neg3 (translation_from_matrix M⁻¹),
          neg3 (rad2deg3 (euler_from_matrix M⁻¹))) ∧
    geometryFromMatrix M false
      = (translation_from_matrix M, neg3 (rad2deg3 (euler_from_matrix M))) ∧
    (∀ inv : Bool, geometryFromMatrix M inv = geometryFromMatrixSpec M inv) := by
  refine ⟨rfl, rfl, fun inv => ?_⟩
  cases inv <;> rfl

end Eman2
